import Mathlib

/-!
Verification of the qapp data-quality engine against its specification.

Shallow embedding of the checking code:
* `legacy/src/field.py` (`Field._explore`, `Field.check_all`) and
  `legacy/src/qa.py` (`qa_check_fields`) — taxonomy / within-column fuzzy matcher
  and the per-field orchestrator;
* `legacy/src/fields/county_name.py` (`County_name.check_special`) — relational
  consistency between `county_name` and `county_fips`;
* `qa_core/checks.py` (`find_duplicate_rows`) and the duplicate row numbering of
  `qa_core/report.py`;
* `qa_core/office_checks.py` (`validate_office_mappings`) — mapping suggestions;
* `qa_core/stats_utils.py` (`vote_distribution_check`) and `qa_core/config.py` —
  robust outlier detection.

Machine integers do not occur (all Python ints here are unbounded); similarity
scores are naturals, statistics are rationals.  The fuzzywuzzy similarity oracle
(`process.extract`) is an external library; the embedding takes it as an explicit
`score : String → String → ℕ` parameter, and concrete theorems instantiate it
with small table functions that agree with fuzzywuzzy's `WRatio` on the pairs
actually compared (the agreed values are documented at each instantiation).
-/

namespace QApp

/-! ## String utilities shared by the legacy matcher

`Field._explore` first condenses each value:
`condensed_value = re.sub(r'\.|,|-', '', value.strip())` followed by
`condensed_value = re.sub(r' ( )+', ' ', condensed_value)`. -/

/-- Whitespace characters removed by Python's `str.strip` (the inputs checked
here contain only plain spaces, tabs and newlines). -/
def isSpaceChar (c : Char) : Bool :=
  c == ' ' || c == '\t' || c == '\n' || c == '\r'

/-- Python `str.strip()`: drop leading and trailing whitespace. -/
def trimChars (l : List Char) : List Char :=
  ((l.dropWhile isSpaceChar).reverse.dropWhile isSpaceChar).reverse

/-- Replace every run of two or more spaces by a single space
(`re.sub(r' ( )+', ' ', s)`); `prev` records whether the previously kept
character was a space. -/
def collapseSpacesAux (prev : Bool) : List Char → List Char
  | [] => []
  | c :: rest =>
      if c == ' ' then
        if prev then collapseSpacesAux true rest
        else ' ' :: collapseSpacesAux true rest
      else c :: collapseSpacesAux false rest

/-- `condensed_value` of `Field._explore`: strip, drop `.`/`,`/`-`, collapse
repeated spaces. -/
def condense (v : String) : String :=
  String.mk (collapseSpacesAux false ((trimChars v.toList).filter
    (fun c => !(c == '.' || c == ',' || c == '-'))))

/-- Python's `sub in s` substring containment test. -/
def strContains (s sub : String) : Bool :=
  (s.toList.tails).any (fun t => sub.toList.isPrefixOf t)

/-- Stable insertion of a string into a list already sorted by length
(auxiliary for `sortByLen`). -/
def insertByLen (x : String) : List String → List String
  | [] => [x]
  | y :: ys => if y.length < x.length then y :: insertByLen x ys else x :: y :: ys

/-- `sorted(values, key=len)`: stable sort by string length. -/
def sortByLen : List String → List String
  | [] => []
  | x :: xs => insertByLen x (sortByLen xs)

/-- Distinct elements of a list, keeping the first occurrence of each
(the order produced by `pandas.unique` / first-insertion dict order);
`seen` accumulates the elements already emitted. -/
def uniqFirstAux {α : Type} [DecidableEq α] (seen : List α) : List α → List α
  | [] => []
  | a :: l =>
      if a ∈ seen then uniqFirstAux seen l
      else a :: uniqFirstAux (a :: seen) l

/-- Distinct elements of a list in first-occurrence order. -/
def uniqFirst {α : Type} [DecidableEq α] (l : List α) : List α :=
  uniqFirstAux [] l

/-! ## The legacy matcher `Field._explore`

`all_matches` is a Python dict from the original value to the recorded match
list; each recorded list is either `[(entry, score)]` (fuzzy tier) or
`[(entry, None)]` (containment / alternative exact tier). -/

/-- A recorded match list: `[(entry, score)]` or `[(entry, None)]`. -/
abbrev MatchList := List (String × Option ℕ)

/-- The `all_matches` dict, in insertion order. -/
abbrev AllMatches := List (String × MatchList)

/-- Python-dict insertion: overwrite the value at an existing key in place,
otherwise append. -/
def dictInsert : AllMatches → String → MatchList → AllMatches
  | [], k, v => [(k, v)]
  | (k', v') :: rest, k, v =>
      if k' = k then (k', v) :: rest else (k', v') :: dictInsert rest k v

/-- Dict lookup. -/
def dictLookup : AllMatches → String → Option MatchList
  | [], _ => none
  | (k', v') :: rest, k => if k' = k then some v' else dictLookup rest k

/-- The literal quoted-empty string `'""'` that `Field._explore` exempts from
fuzzy matching. -/
def QUOTED_EMPTY : String := "\"\""

/-- `miscellaneous.EMPTY_RECORD`, the sentinel that replaces missing cells. -/
def EMPTY_RECORD : String := "<<<EC: VALUE WAS EMPTY>>>"

/-- The record that one iteration of `_explore`'s inner loop stores for
`(value, entry)`, or `none` when no branch fires.  Mirrors the branch ladder:
`match` is `None` when either side is `'""'`, otherwise
`process.extract(condensed, [entry])`; a fuzzy hit needs
`match[0][1] >= sensitivity`; then the containment branch
`search_like_entry in condensed_value`; then the `alt_exact_match` branch. -/
def qualRecord (altExact : Bool) (sens : ℕ) (score : String → String → ℕ)
    (condensed entry : String) : Option MatchList :=
  if condensed == QUOTED_EMPTY || entry == QUOTED_EMPTY then
    if !altExact && strContains condensed entry then some [(entry, none)]
    else if altExact && (condensed == entry) then some [(entry, none)]
    else none
  else
    if !altExact && decide (sens ≤ score condensed entry) then
      some [(entry, some (score condensed entry))]
    else if !altExact && strContains condensed entry then some [(entry, none)]
    else if altExact && (condensed == entry) then some [(entry, none)]
    else none

/-- One iteration of `_explore`'s inner loop: store the qualifying record under
`value` (overwriting a previously recorded one), or leave the dict unchanged. -/
def entryStep (altExact : Bool) (sens : ℕ) (score : String → String → ℕ)
    (value condensed entry : String) (acc : AllMatches) : AllMatches :=
  match qualRecord altExact sens score condensed entry with
  | some r => dictInsert acc value r
  | none => acc

/-- `_explore`'s inner loop over the comparison entries for one value. -/
def valueStep (altExact : Bool) (sens : ℕ) (score : String → String → ℕ)
    (value : String) (entries : List String) (acc : AllMatches) : AllMatches :=
  entries.foldl (fun acc e => entryStep altExact sens score value (condense value) e acc) acc

/-- `_explore`'s outer loop over the length-sorted values.  In taxonomy mode
(`searchLike = some aliases`) each value is compared against the aliases; in
within-column mode (`searchLike = none`) against `values_to_search[i+1:]`, the
values strictly after it. -/
def exploreLoop (altExact : Bool) (sens : ℕ) (score : String → String → ℕ)
    (searchLike : Option (List String)) : List String → AllMatches → AllMatches
  | [], acc => acc
  | v :: rest, acc =>
      let entries := match searchLike with
        | some s => s
        | none => rest
      exploreLoop altExact sens score searchLike rest
        (valueStep altExact sens score v entries acc)

/-- `Field._explore(values, search_like, sensitivity, alt_exact_match)`
(progress-bar output elided). -/
def explore (score : String → String → ℕ) (sens : ℕ) (altExact : Bool)
    (searchLike : Option (List String)) (values : List String) : AllMatches :=
  exploreLoop altExact sens score searchLike (sortByLen values) []

/-- Instrumentation of `_explore`'s iteration structure: the `(value, entry)`
pairs visited by the two nested loops, in order.  The iteration space does not
depend on match outcomes — `continue` only moves to the next entry. -/
def comparedPairsLoop (searchLike : Option (List String)) :
    List String → List (String × String)
  | [] => []
  | v :: rest =>
      (match searchLike with
        | some s => s
        | none => rest).map (fun e => (v, e)) ++ comparedPairsLoop searchLike rest

/-- All `(value, entry)` pairs iterated by `_explore`. -/
def comparedPairs (searchLike : Option (List String)) (values : List String) :
    List (String × String) :=
  comparedPairsLoop searchLike (sortByLen values)

/-- Instrumentation of the fuzzy tier: the `(condensed value, entry)` pairs on
which `process.extract` is actually invoked — every visited pair except those
where the `'""'` guard sets `match = None`. -/
def fuzzyPairsLoop (searchLike : Option (List String)) :
    List String → List (String × String)
  | [] => []
  | v :: rest =>
      ((match searchLike with
        | some s => s
        | none => rest).filterMap (fun e =>
          if condense v == QUOTED_EMPTY || e == QUOTED_EMPTY then none
          else some (condense v, e))) ++ fuzzyPairsLoop searchLike rest

/-- All `(condensed value, entry)` pairs on which a fuzzy similarity score is
computed by `_explore`. -/
def fuzzyPairs (searchLike : Option (List String)) (values : List String) :
    List (String × String) :=
  fuzzyPairsLoop searchLike (sortByLen values)

/-- The record produced by the last entry in iteration order that qualifies
(fuzzy score at or above the sensitivity, containment, or alternative exact
match), scanning `entries` left to right. -/
def lastQual (altExact : Bool) (sens : ℕ) (score : String → String → ℕ)
    (condensed : String) : List String → Option MatchList
  | [] => none
  | e :: es =>
      match lastQual altExact sens score condensed es with
      | some r => some r
      | none => qualRecord altExact sens score condensed e

/-! ## `Field.check_all` and the `qa_check_fields` orchestrator

`Field.check_all` (legacy/src/field.py) raises `KeyError` when the requested
column is absent, and otherwise runs the character, similarity and special
queries in order (each wrapped in a `KeyboardInterrupt` recovery).
`qa_check_fields` (legacy/src/qa.py) iterates over all field modules: a field
whose column is missing is skipped with an explanatory note and the loop
continues; otherwise `check_all` is invoked on it.  File output is elided. -/

/-- Outcome of processing one field in `qa_check_fields`. -/
inductive FieldOutcome where
  | skipped (note : String)
  | ran (subchecks : List String)
  | failed (exn : String)
deriving DecidableEq, Repr

/-- `Field.check_all(data, column, ...)`: `KeyError` when `column` is not a
dataset column, otherwise the three sub-queries run. -/
def checkAll (cols : List String) (column : String) : Except String (List String) :=
  if column ∈ cols then
    Except.ok ["check_characters", "check_similarities", "check_special"]
  else
    Except.error (column ++ " is not a column in the dataset.")

/-- The body of `qa_check_fields`' loop for one field: skip with a note when the
column is missing, otherwise invoke `check_all` (whose exception, were it
raised, would propagate as `failed`). -/
def runField (cols : List String) (f : String) : FieldOutcome :=
  if f ∈ cols then
    match checkAll cols f with
    | Except.ok cs => FieldOutcome.ran cs
    | Except.error e => FieldOutcome.failed e
  else
    FieldOutcome.skipped ("*Dataset does not have column " ++ f ++ ".")

/-- `qa_check_fields(data)`: process every field module in order. -/
def qaCheckFields (cols : List String) (fields : List String) :
    List (String × FieldOutcome) :=
  fields.map (fun f => (f, runField cols f))

/-! ## `County_name.check_special` (legacy/src/fields/county_name.py)

Groups records by `county_name`, collects the distinct `county_fips` values per
name, flags names mapping to more than one fips (and symmetrically fips mapping
to more than one name).  When `county_fips` is absent the check degrades to a
note and reports nothing. -/

/-- Distinct target values observed for a source key, in first-appearance order
(`data.groupby([src])[tgt].unique()` for one key). -/
def distinctTargets (pairs : List (String × String)) (k : String) : List String :=
  uniqFirst ((pairs.filter (fun p => p.1 == k)).map (fun p => p.2))

/-- The observed source keys, in first-appearance order. -/
def sourcesOf (pairs : List (String × String)) : List String :=
  uniqFirst (pairs.map (fun p => p.1))

/-- The irregular (one-to-many) mappings of one direction: source keys whose
distinct-target list has more than one element, paired with that full list. -/
def irregularMappings (pairs : List (String × String)) :
    List (String × List String) :=
  (sourcesOf pairs).filterMap (fun k =>
    let ts := distinctTargets pairs k
    if 1 < ts.length then some (k, ts) else none)

/-- Result of `County_name.check_special` (report text elided). -/
structure CountyCheckResult where
  skipped : Bool
  nameToFips : List (String × List String)
  fipsToNames : List (String × List String)
deriving DecidableEq, Repr

/-- `County_name.check_special`: both relational directions, or a skip note when
`county_fips` is not a column. -/
def countyCheckSpecial (cols : List String) (pairs : List (String × String)) :
    CountyCheckResult :=
  if "county_fips" ∈ cols then
    { skipped := false
      nameToFips := irregularMappings pairs
      fipsToNames := irregularMappings (pairs.map (fun p => (p.2, p.1))) }
  else
    { skipped := true, nameToFips := [], fipsToNames := [] }

/-! ## `validate_office_mappings` (qa_core/office_checks.py) -/

/-- `DEFAULT_CANONICAL`, the built-in canonical office list. -/
def CANONICAL : List String :=
  ["US PRESIDENT", "GOVERNOR", "US SENATE", "US HOUSE", "STATE SENATE",
   "STATE HOUSE", "ATTORNEY GENERAL", "SECRETARY OF STATE", "TREASURER"]

/-- The fixed stopword set of the token heuristic. -/
def STOPWORDS : List String := ["THE", "FOR", "OF", "AND", "TO", "A", "AN"]

/-- Split a character list into maximal whitespace-free words
(Python `str.split()` with no separator: no empty tokens). -/
def splitWordsAux (acc : List Char) : List Char → List (List Char)
  | [] => if acc.isEmpty then [] else [acc.reverse]
  | c :: rest =>
      if isSpaceChar c then
        if acc.isEmpty then splitWordsAux [] rest
        else acc.reverse :: splitWordsAux [] rest
      else splitWordsAux (c :: acc) rest

/-- Python `s.split()`. -/
def pySplit (s : String) : List String :=
  (splitWordsAux [] s.toList).map String.mk

/-- `_tokens(s)`: whitespace tokens with the stopwords removed (`split()`
produces no empty tokens, so the `p.strip()` filter of the source is a no-op). -/
def toksOf (s : String) : List String :=
  (pySplit s).filter (fun t => !(STOPWORDS.contains t))

/-- Python upper-casing restricted to the ASCII data handled here. -/
def pyUpper (s : String) : String := String.mk (s.toList.map Char.toUpper)

/-- `_normalize_office`: `str(s).strip().upper()`. -/
def normOffice (s : String) : String := pyUpper (String.mk (trimChars s.toList))

/-- The token-overlap coefficient `2·|o_toks ∩ c_toks| / (|o_toks| + |c_toks|)`
between the token sets of an observed value and a canonical office (`0` when
the canonical has no tokens, mirroring the `continue` of the source). -/
def overlapScore (o c : String) : ℚ :=
  if (uniqFirst (toksOf c)).isEmpty then 0
  else (2 * (((uniqFirst (toksOf o)).filter
      (fun t => (uniqFirst (toksOf c)).contains t)).length : ℚ)) /
    (((uniqFirst (toksOf o)).length : ℚ) + ((uniqFirst (toksOf c)).length : ℚ))

/-- Python `round(q, 2)` on the exact rationals arising here (none of which is a
half-way case, so round-half-even and round-half-up agree). -/
def round2 (q : ℚ) : ℚ := ((round (q * 100) : ℤ) : ℚ) / 100

/-- The quick heuristics of the suggestion loop: exact equality (`1.0`),
prefix in either direction (`0.95`), containment in either direction (`0.9`);
first canonical that fires wins, scanning in list order. -/
def quickScan (o : String) : List String → Option (String × ℚ)
  | [] => none
  | c :: cs =>
      if o == c then some (c, 1)
      else if o.toList.isPrefixOf c.toList || c.toList.isPrefixOf o.toList then
        some (c, 19/20)
      else if strContains o c || strContains c o then some (c, 9/10)
      else quickScan o cs

/-- The quick exact/containment heuristics over the canonical set. -/
def quickBest (o : String) : Option (String × ℚ) := quickScan o CANONICAL

/-- The best-overlap scan of the token heuristic: canonicals with no tokens are
skipped, and the running best is replaced only on a strictly larger overlap. -/
def tokenScan (o : String) : List String → Option String × ℚ → Option String × ℚ
  | [], best => best
  | c :: cs, (bt, bo) =>
      if (uniqFirst (toksOf c)).isEmpty then tokenScan o cs (bt, bo)
      else if bo < overlapScore o c then tokenScan o cs (some c, overlapScore o c)
      else tokenScan o cs (bt, bo)

/-- The token-overlap heuristic: when the observed value has tokens, take the
best-overlap canonical and accept it if the overlap is at least `0.4`, with
confidence `round(0.8 + best_overlap * 0.2, 2)`. -/
def tokenBest (o : String) : Option (String × ℚ) :=
  if (uniqFirst (toksOf o)).isEmpty then none
  else
    match tokenScan o CANONICAL (none, 0) with
    | (some c, bo) =>
        if 2/5 ≤ bo then some (c, round2 (4/5 + bo * (1/5))) else none
    | (none, _) => none

/-- Summary result of `validate_office_mappings` (sample rows elided; the
`difflib.get_close_matches` fallback of the suggestion chain is a Python
standard-library call and is modelled as producing no suggestion — no claim
checked here depends on it). -/
structure OfficeResult where
  issues : ℕ
  issueValues : List String
  suggestions : List (String × String × ℚ)
deriving DecidableEq, Repr

/-- `validate_office_mappings(df)`: zero-issue result when the `office` column
is missing or everything matches; otherwise the unmatched counts and the
suggestion chain (quick heuristics, then token overlap). -/
def validateOfficeMappings (cols : List String) (officeVals : List String) :
    OfficeResult :=
  if "office" ∈ cols then
    let norm := officeVals.map normOffice
    let observed := uniqFirst norm
    let unmatched := observed.filter (fun o => !(o == "") && !(CANONICAL.contains o))
    if unmatched.isEmpty then ⟨0, [], []⟩
    else
      { issues := (unmatched.map (fun o => norm.count o)).sum
        issueValues := unmatched
        suggestions := unmatched.filterMap (fun o =>
          match quickBest o with
          | some (c, sc) => some (o, c, sc)
          | none =>
              match tokenBest o with
              | some (c, sc) => some (o, c, sc)
              | none => none) }
  else ⟨0, [], []⟩

/-! ## `vote_distribution_check` (qa_core/stats_utils.py)

The dataset is modelled as `(state, parsed vote)` pairs; the pandas coercion
`pd.to_numeric(..., errors="coerce").dropna()` is modelled by `Option ℚ` cell
values with `none` for unparseable entries, dropped by `filterMap`.  The
function reads `config.MIN_EXPECTED_ROWS` and `config.OUTLIER_THRESHOLD`; the
claims quantify over those settings, so they are explicit parameters here, with
the config defaults recorded below.  (The guard returning an `error` marker when
`state`/`precinct`/`votes` columns are missing precedes this computation in the
source and is independent of these claims.) -/

/-- `config.MIN_EXPECTED_ROWS` (qa_core/config.py line 25). -/
def MIN_EXPECTED_ROWS : ℕ := 10

/-- `config.OUTLIER_THRESHOLD` (qa_core/config.py line 24). -/
def OUTLIER_THRESHOLD : ℚ := 7/2

/-- Insert into a `≤`-sorted list of rationals. -/
def insertQ (x : ℚ) : List ℚ → List ℚ
  | [] => [x]
  | y :: ys => if y ≤ x then y :: insertQ x ys else x :: y :: ys

/-- Ascending sort of a list of rationals. -/
def sortQ : List ℚ → List ℚ
  | [] => []
  | x :: xs => insertQ x (sortQ xs)

/-- `np.median`: middle element of the sorted list, or the mean of the two
middle elements for even length (`0` for the empty list, never reached under
the guards of the check). -/
def medianQ (l : List ℚ) : ℚ :=
  let s := sortQ l
  let n := s.length
  if n == 0 then 0
  else if n % 2 == 1 then s.getD (n / 2) 0
  else (s.getD (n / 2 - 1) 0 + s.getD (n / 2) 0) / 2

/-- `mad = np.median(np.abs(votes - median))`. -/
def madQ (l : List ℚ) : ℚ := medianQ (l.map (fun v => |v - medianQ l|))

/-- The parseable numeric votes of one state partition, in dataset order
(`pd.to_numeric(group["votes"], errors="coerce").dropna()`). -/
def groupVotes (df : List (String × Option ℚ)) (s : String) : List ℚ :=
  (df.filter (fun p => p.1 == s)).filterMap (fun p => p.2)

/-- The partition keys of `df.groupby("state")` (ordering is irrelevant to the
claims checked here). -/
def statesOf (df : List (String × Option ℚ)) : List String :=
  uniqFirst (df.map (fun p => p.1))

/-- The partitions whose statistics are computed: those that survive the
`len(votes) < MIN_EXPECTED_ROWS: continue` guard. -/
def evaluatedStates (minRows : ℕ) (df : List (String × Option ℚ)) : List String :=
  (statesOf df).filter (fun s => decide (minRows ≤ (groupVotes df s).length))

/-- Positions (within the partition's parseable votes) whose robust z-score
`|(v - median)/mad|` exceeds the threshold. -/
def flaggedIn (thr : ℚ) (votes : List ℚ) : List ℕ :=
  let m := medianQ votes
  let md := madQ votes
  (votes.enum.filter (fun p => decide (thr < |(p.2 - m) / md|))).map (fun p => p.1)

/-- All flagged records, as `(state, position-in-partition)` pairs, mirroring
the guards of the source loop (small partitions and zero-MAD partitions
contribute nothing). -/
def flaggedRecords (minRows : ℕ) (thr : ℚ) (df : List (String × Option ℚ)) :
    List (String × ℕ) :=
  (statesOf df).flatMap (fun s =>
    let votes := groupVotes df s
    if votes.length < minRows then []
    else if madQ votes == 0 then []
    else (flaggedIn thr votes).map (fun i => (s, i)))

/-- `vote_distribution_check(df)`: per state, the number of outlying votes, with
states contributing only when they pass the size guard, have nonzero MAD, and
have at least one outlier. -/
def voteDistributionCheck (minRows : ℕ) (thr : ℚ) (df : List (String × Option ℚ)) :
    List (String × ℕ) :=
  (statesOf df).filterMap (fun s =>
    let votes := groupVotes df s
    if votes.length < minRows then none
    else
      let m := medianQ votes
      let md := madQ votes
      if md == 0 then none
      else
        let nOut := (votes.filter (fun v => decide (thr < |(v - m) / md|))).length
        if nOut == 0 then none else some (s, nOut))

/-! ## `find_duplicate_rows` (qa_core/checks.py) and the duplicate row numbers
of `qa_core/report.py`

A dataset is a column list `cols` together with rows of string cell values
aligned with `cols`. -/

/-- `df.duplicated(keep=False)` for one row: its full content occurs at least
twice in the dataset. -/
def exactDup (df : List (List String)) (r : List String) : Bool :=
  decide (2 ≤ df.count r)

/-- A row restricted to `cols_no_votes = [c for c in df.columns if c != "votes"]`. -/
def dropVotes (cols : List String) (r : List String) : List String :=
  ((cols.zip r).filter (fun p => !(p.1 == "votes"))).map (fun p => p.2)

/-- `df.duplicated(subset=cols_no_votes, keep=False) & ~exact_mask` for one
row. -/
def onlyNoVotes (cols : List String) (df : List (List String)) (r : List String) : Bool :=
  decide (2 ≤ (df.map (dropVotes cols)).count (dropVotes cols r)) && !(exactDup df r)

/-- The `precinct` cell of a row (empty when the column is absent). -/
def precinctOf (cols : List String) (r : List String) : String :=
  (((cols.zip r).find? (fun p => p.1 == "precinct")).map (fun p => p.2)).getD ""

/-- The per-group precinct filter applied to the all-but-votes candidates:
keep a row when its group (the candidate rows sharing its no-votes key) has
exactly one distinct precinct value; vacuously true when `precinct` is not a
column. -/
def precinctOk (cols : List String) (df : List (List String)) (r : List String) : Bool :=
  if "precinct" ∈ cols then
    let grp := df.filter (fun r' =>
      onlyNoVotes cols df r' && (dropVotes cols r' == dropVotes cols r))
    decide ((uniqFirst (grp.map (precinctOf cols))).length = 1)
  else true

/-- A row flagged as an all-but-votes duplicate: no-votes duplicate, not an
exact duplicate, and surviving the precinct filter. -/
def abvKept (cols : List String) (df : List (List String)) (r : List String) : Bool :=
  onlyNoVotes cols df r && precinctOk cols df r

/-- Lexicographic comparison of two rows by their cell values in column order
(the key order of `result.sort_values(by=list(df.columns))`). -/
def rowLe : List String → List String → Bool
  | [], _ => true
  | _ :: _, [] => false
  | a :: as, b :: bs => if a == b then rowLe as bs else decide (a.toList < b.toList)

/-- Insertion into a list of tagged rows sorted by `rowLe` on the row. -/
def insertFlagged (x : List String × String) :
    List (List String × String) → List (List String × String)
  | [] => [x]
  | y :: ys => if rowLe y.1 x.1 then y :: insertFlagged x ys else x :: y :: ys

/-- Sort the tagged rows by row content (`sort_values` over all original
columns; rows with equal keys have identical content and tag, so the sort kind
does not affect the result). -/
def sortFlagged : List (List String × String) → List (List String × String)
  | [] => []
  | x :: xs => insertFlagged x (sortFlagged xs)

/-- `find_duplicate_rows(df)`: exact duplicates, then all-but-votes duplicates
(when a `votes` column exists alongside others), concatenated with
`ignore_index=True`, sorted by all columns and re-indexed
(`reset_index(drop=True)`) — the output rows carry no original index. -/
def findDuplicateRows (cols : List String) (df : List (List String)) :
    List (List String × String) :=
  if df.isEmpty then []
  else
    let exact := (df.filter (fun r => exactDup df r)).map
      (fun r => (r, "exact_duplicate"))
    let abv :=
      if "votes" ∈ cols ∧ 1 < cols.length then
        (df.filter (fun r => abvKept cols df r)).map
          (fun r => (r, "all_but_votes_duplicate"))
      else []
    sortFlagged (exact ++ abv)

/-- The row numbers that `report.py` attaches to a duplication kind:
`g.index.to_series().add(1)` over the groups of the (re-indexed, re-sorted)
output of `find_duplicate_rows` — that is, 1-based positions in the output. -/
def reportedRowNumbers (cols : List String) (df : List (List String)) (t : String) :
    List ℕ :=
  ((findDuplicateRows cols df).enum.filter (fun p => p.2.2 == t)).map
    (fun p => p.1 + 1)

/-- The original 1-indexed dataset positions of the exact duplicates. -/
def originalExactRowNumbers (df : List (List String)) : List ℕ :=
  (df.enum.filter (fun p => exactDup df p.2)).map (fun p => p.1 + 1)

/-- The concrete dataset refuting original-position preservation (C3): columns
`precinct, office, votes`; rows 1 and 2 are exact duplicates, rows 3 and 4 are
all-but-votes duplicates that sort before them. -/
def dfC3 : List (List String) :=
  [["P3", "O", "7"], ["P3", "O", "7"], ["P1", "O", "5"], ["P1", "O", "6"]]

/-- The column list of `dfC3`. -/
def colsC3 : List String := ["precinct", "office", "votes"]

/-- A single-state dataset with ten parseable votes, used to instantiate the
outlier theorems (the last vote is an extreme outlier). -/
def dfOutlier : List (String × Option ℚ) :=
  [("S", some 1), ("S", some 2), ("S", some 3), ("S", some 4), ("S", some 5),
   ("S", some 6), ("S", some 7), ("S", some 8), ("S", some 9), ("S", some 100)]

/-- A single-state dataset with one vote, below any realistic minimum partition
size. -/
def dfSmall : List (String × Option ℚ) := [("S", some 1)]

/-- Scorer used for the C1 counterexample.  It agrees with fuzzywuzzy's default
`process.extract` scoring (`WRatio` after `full_process`) on the two pairs the
counterexample compares: `WRatio("hello world", "hello world") = 100` and
`WRatio("hello world", "hello worlds") = 96` (ratio `2·11/23 → 96`; the
token-based variants score at most `96·0.95`). -/
def scoreC1 : String → String → ℕ :=
  fun _ e => if e = "HELLO WORLD" then 100 else 96

/-- Scorer used for the C4 counterexample.  It agrees with fuzzywuzzy's
`WRatio` on the one pair compared: `WRatio("smith", "sm1th") = 80`
(one substitution in five characters; equal lengths, so no partial scoring). -/
def scoreC4 : String → String → ℕ := fun _ _ => 80

/-! ## Supporting lemmas -/

theorem mem_insertFlagged {x y : List String × String}
    {l : List (List String × String)} :
    x ∈ insertFlagged y l ↔ x = y ∨ x ∈ l := by
  induction l with
  | nil => simp [insertFlagged]
  | cons z zs ih =>
      by_cases h : rowLe z.1 y.1 = true
      · simp only [insertFlagged, if_pos h, List.mem_cons, ih]
        tauto
      · simp only [insertFlagged, if_neg h, List.mem_cons]

theorem mem_sortFlagged {x : List String × String}
    {l : List (List String × String)} :
    x ∈ sortFlagged l ↔ x ∈ l := by
  induction l with
  | nil => simp [sortFlagged]
  | cons z zs ih => simp [sortFlagged, mem_insertFlagged, ih]

/-- Every row flagged by `find_duplicate_rows` is tagged `exact_duplicate` and
satisfies the exact-duplicate mask, or is tagged `all_but_votes_duplicate` and
satisfies the all-but-votes mask. -/
theorem mem_findDuplicateRows {cols : List String} {df : List (List String)}
    {r : List String} {k : String}
    (h : (r, k) ∈ findDuplicateRows cols df) :
    (k = "exact_duplicate" ∧ exactDup df r = true) ∨
      (k = "all_but_votes_duplicate" ∧ abvKept cols df r = true) := by
  unfold findDuplicateRows at h
  by_cases hdf : df.isEmpty
  · simp [hdf] at h
  · simp only [hdf, if_neg, Bool.false_eq_true, not_false_iff, if_false] at h
    rw [mem_sortFlagged] at h
    rcases List.mem_append.mp h with h1 | h1
    · rcases List.mem_map.mp h1 with ⟨r', hr', heq⟩
      obtain ⟨h2, h3⟩ := Prod.mk.injEq .. ▸ heq
      left
      refine ⟨h3.symm, ?_⟩
      rw [← h2]
      exact (List.mem_filter.mp hr').2
    · by_cases hg : "votes" ∈ cols ∧ 1 < cols.length
      · rw [if_pos hg] at h1
        rcases List.mem_map.mp h1 with ⟨r', hr', heq⟩
        obtain ⟨h2, h3⟩ := Prod.mk.injEq .. ▸ heq
        right
        refine ⟨h3.symm, ?_⟩
        rw [← h2]
        exact (List.mem_filter.mp hr').2
      · rw [if_neg hg] at h1
        simp at h1

/-- An all-but-votes-kept row is never an exact duplicate. -/
theorem abvKept_not_exactDup {cols : List String} {df : List (List String)}
    {r : List String} (h : abvKept cols df r = true) : exactDup df r = false := by
  unfold abvKept onlyNoVotes at h
  rcases Bool.and_eq_true .. ▸ h with ⟨h1, _⟩
  rcases Bool.and_eq_true .. ▸ h1 with ⟨_, h2⟩
  simpa using h2

/-- C2.  For every dataset, the exact-duplicate and all-but-votes classifications
of `find_duplicate_rows` are mutually exclusive: a record content appears in the
output under at most one duplication kind, so no record (and hence no record
pair) is reported under both kinds in one pass. -/
theorem duplicate_kinds_exclusive (cols : List String) (df : List (List String))
    (r : List String) (k₁ k₂ : String)
    (h₁ : (r, k₁) ∈ findDuplicateRows cols df)
    (h₂ : (r, k₂) ∈ findDuplicateRows cols df) : k₁ = k₂ := by
  rcases mem_findDuplicateRows h₁ with ⟨e₁, m₁⟩ | ⟨e₁, m₁⟩ <;>
    rcases mem_findDuplicateRows h₂ with ⟨e₂, m₂⟩ | ⟨e₂, m₂⟩
  · rw [e₁, e₂]
  · rw [abvKept_not_exactDup m₂] at m₁
    exact absurd m₁ (by simp)
  · rw [abvKept_not_exactDup m₁] at m₂
    exact absurd m₂ (by simp)
  · rw [e₁, e₂]

/-- Witness for C2 at a concrete dataset with both duplicate kinds present. -/
theorem duplicate_kinds_exclusive_witness :
    ((["P3", "O", "7"], "exact_duplicate") ∈ findDuplicateRows colsC3 dfC3) ∧
      "exact_duplicate" = "exact_duplicate" :=
  ⟨by decide,
    duplicate_kinds_exclusive colsC3 dfC3 ["P3", "O", "7"]
      "exact_duplicate" "exact_duplicate" (by decide) (by decide)⟩

/-- C3.  The row numbers that the report derives for duplicate findings are
positions in the re-sorted, re-indexed output of `find_duplicate_rows`, not the
original dataset positions: on `dfC3` the exact duplicates are input rows 1 and
2, but the report numbers them 3 and 4. -/
theorem duplicate_row_numbers_not_original :
    reportedRowNumbers colsC3 dfC3 "exact_duplicate" = [3, 4] ∧
      originalExactRowNumbers dfC3 = [1, 2] ∧
      reportedRowNumbers colsC3 dfC3 "exact_duplicate" ≠ originalExactRowNumbers dfC3 := by
  refine ⟨by decide, by decide, by decide⟩

/-- Counterexample for C5.  `Field.check_all`, invoked directly on a dataset
missing the requested column, raises `KeyError` — an exception, not a soft
"check skipped" result. -/
theorem check_all_missing_column_counterexample :
    checkAll ["precinct"] "votes" =
      Except.error "votes is not a column in the dataset." := by
  rfl

/-- C5 (amended).  Missing-column handling: the per-field orchestrator skips a
missing column with an explanatory note *before* invoking `check_all` and still
processes every field (none ends in a propagated exception); the office-mapping
and county relational checks return soft zero-issue results when their columns
are missing.  `Field.check_all` itself, however, raises `KeyError` when invoked
directly with a missing column (see the counterexample). -/
theorem missing_column_soft_skip :
    (∀ cols fields : List String, (qaCheckFields cols fields).length = fields.length) ∧
    (∀ cols fields : List String, ∀ f ∈ fields, f ∉ cols →
      (f, FieldOutcome.skipped ("*Dataset does not have column " ++ f ++ ".")) ∈
        qaCheckFields cols fields) ∧
    (∀ cols fields : List String, ∀ p ∈ qaCheckFields cols fields,
      ∀ e, p.2 ≠ FieldOutcome.failed e) ∧
    (∀ cols vals : List String, "office" ∉ cols →
      validateOfficeMappings cols vals = ⟨0, [], []⟩) ∧
    (∀ (cols : List String) (pairs : List (String × String)), "county_fips" ∉ cols →
      countyCheckSpecial cols pairs = ⟨true, [], []⟩) := by
  refine ⟨?_, ?_, ?_, ?_, ?_⟩
  · intro cols fields
    exact List.length_map _ _
  · intro cols fields f hf hmiss
    refine List.mem_map.mpr ⟨f, hf, ?_⟩
    simp [runField, hmiss]
  · intro cols fields p hp e
    rcases List.mem_map.mp hp with ⟨f, _, rfl⟩
    by_cases hc : f ∈ cols
    · simp [runField, hc, checkAll]
    · simp [runField, hc]
  · intro cols vals hmiss
    simp [validateOfficeMappings, hmiss]
  · intro cols pairs hmiss
    simp only [countyCheckSpecial, if_neg hmiss]

/-- Witness for C5 at concrete inputs: a one-column dataset with the `office`
and `county_fips` columns missing. -/
theorem missing_column_soft_skip_witness :
    ("votes" ∈ ["votes"] ∨ True) ∧
    ("office" ∉ ["precinct"]) ∧
      validateOfficeMappings ["precinct"] ["X"] = ⟨0, [], []⟩ ∧
      ("county_fips" ∉ ["precinct"]) ∧
      countyCheckSpecial ["precinct"] [("A", "1")] = ⟨true, [], []⟩ ∧
      ("votes", FieldOutcome.skipped "*Dataset does not have column votes.") ∈
        qaCheckFields ["precinct"] ["votes"] :=
  ⟨Or.inr trivial, by decide,
    missing_column_soft_skip.2.2.2.1 ["precinct"] ["X"] (by decide), by decide,
    missing_column_soft_skip.2.2.2.2 ["precinct"] [("A", "1")] (by decide),
    missing_column_soft_skip.2.1 ["precinct"] ["votes"] "votes" (by decide) (by decide)⟩

/-! ### `uniqFirst` membership -/

theorem mem_uniqFirstAux {α : Type} [DecidableEq α] {x : α} :
    ∀ {seen l : List α}, x ∈ uniqFirstAux seen l ↔ x ∈ l ∧ x ∉ seen := by
  intro seen l
  induction l generalizing seen with
  | nil => simp [uniqFirstAux]
  | cons a l ih =>
      by_cases ha : a ∈ seen
      · rw [uniqFirstAux, if_pos ha, ih, List.mem_cons]
        constructor
        · exact fun ⟨h1, h2⟩ => ⟨Or.inr h1, h2⟩
        · rintro ⟨h1 | h1, h2⟩
          · exact absurd (h1 ▸ ha) h2
          · exact ⟨h1, h2⟩
      · rw [uniqFirstAux, if_neg ha, List.mem_cons, ih, List.mem_cons]
        by_cases hx : x = a
        · subst hx
          simp [ha]
        · simp only [hx, false_or, List.mem_cons]

theorem mem_uniqFirst {α : Type} [DecidableEq α] {x : α} {l : List α} :
    x ∈ uniqFirst l ↔ x ∈ l := by
  rw [uniqFirst, mem_uniqFirstAux]
  simp

/-! ### Relational consistency (C6) -/

theorem mem_distinctTargets {pairs : List (String × String)} {k t : String} :
    t ∈ distinctTargets pairs k ↔ (k, t) ∈ pairs := by
  rw [distinctTargets, mem_uniqFirst]
  constructor
  · intro h
    rcases List.mem_map.mp h with ⟨p, hp, rfl⟩
    rcases List.mem_filter.mp hp with ⟨hmem, hk⟩
    have : p.1 = k := by simpa using hk
    rwa [← this, Prod.mk.eta]
  · intro h
    exact List.mem_map.mpr ⟨(k, t), List.mem_filter.mpr ⟨h, by simp⟩, rfl⟩

theorem mem_irregularMappings {pairs : List (String × String)}
    {k : String} {ts : List String} :
    (k, ts) ∈ irregularMappings pairs ↔
      k ∈ pairs.map Prod.fst ∧ ts = distinctTargets pairs k ∧ 1 < ts.length := by
  rw [irregularMappings]
  constructor
  · intro h
    rcases List.mem_filterMap.mp h with ⟨a, ha, hsome⟩
    by_cases hlen : 1 < (distinctTargets pairs a).length
    · rw [if_pos hlen] at hsome
      obtain ⟨h1, h2⟩ := Prod.mk.injEq .. ▸ (Option.some.injEq .. ▸ hsome)
      subst h1
      refine ⟨?_, h2.symm, h2 ▸ hlen⟩
      rw [sourcesOf, mem_uniqFirst] at ha
      exact ha
    · rw [if_neg hlen] at hsome
      exact absurd hsome (by simp)
  · rintro ⟨hk, rfl, hlen⟩
    refine List.mem_filterMap.mpr ⟨k, ?_, if_pos hlen⟩
    rw [sourcesOf, mem_uniqFirst]
    exact hk

/-- C6.  With `county_fips` present, the relational checker flags a source value
iff its set of distinct observed targets has more than one element, it reports
that full distinct-target set, and it evaluates both directions — name→fips on
the observed pairs and fips→name on the swapped pairs — independently. -/
theorem county_relational_check (cols : List String)
    (pairs : List (String × String)) (h : "county_fips" ∈ cols) :
    ((countyCheckSpecial cols pairs).skipped = false) ∧
    (∀ k ts, (k, ts) ∈ (countyCheckSpecial cols pairs).nameToFips ↔
      (k ∈ pairs.map Prod.fst ∧ ts = distinctTargets pairs k ∧ 1 < ts.length)) ∧
    (∀ k ts t, (k, ts) ∈ (countyCheckSpecial cols pairs).nameToFips →
      (t ∈ ts ↔ (k, t) ∈ pairs)) ∧
    (∀ f ns, (f, ns) ∈ (countyCheckSpecial cols pairs).fipsToNames ↔
      (f ∈ pairs.map Prod.snd ∧
        ns = distinctTargets (pairs.map (fun p => (p.2, p.1))) f ∧ 1 < ns.length)) ∧
    (∀ f ns n, (f, ns) ∈ (countyCheckSpecial cols pairs).fipsToNames →
      (n ∈ ns ↔ (n, f) ∈ pairs)) := by
  have hswap : ∀ (a b : String),
      ((a, b) ∈ pairs.map (fun p => (p.2, p.1))) ↔ (b, a) ∈ pairs := by
    intro a b
    constructor
    · intro hm
      rcases List.mem_map.mp hm with ⟨p, hp, heq⟩
      obtain ⟨h1, h2⟩ := Prod.mk.injEq .. ▸ heq
      rw [← h1, ← h2, Prod.mk.eta]
      exact hp
    · intro hm
      exact List.mem_map.mpr ⟨(b, a), hm, rfl⟩
  rw [countyCheckSpecial, if_pos h]
  refine ⟨rfl, ?_, ?_, ?_, ?_⟩
  · intro k ts
    exact mem_irregularMappings
  · intro k ts t hm
    rcases mem_irregularMappings.mp hm with ⟨_, rfl, _⟩
    exact mem_distinctTargets
  · intro f ns
    rw [mem_irregularMappings]
    have : (pairs.map (fun p => (p.2, p.1))).map Prod.fst = pairs.map Prod.snd := by
      rw [List.map_map]
      rfl
    rw [this]
  · intro f ns n hm
    rcases mem_irregularMappings.mp hm with ⟨_, rfl, _⟩
    rw [mem_distinctTargets, hswap]

/-- Witness for C6 on a concrete dataset where `ADAMS` maps to two fips codes. -/
theorem county_relational_check_witness :
    ("county_fips" ∈ ["county_name", "county_fips"]) ∧
      ("ADAMS", ["001", "003"]) ∈
        (countyCheckSpecial ["county_name", "county_fips"]
          [("ADAMS", "001"), ("ADAMS", "003"), ("BAKER", "002")]).nameToFips :=
  ⟨by decide,
    ((county_relational_check ["county_name", "county_fips"]
      [("ADAMS", "001"), ("ADAMS", "003"), ("BAKER", "002")] (by decide)).2.1
      "ADAMS" ["001", "003"]).mpr ⟨by decide, by decide, by decide⟩⟩

/-! ### Outlier detection (C7, C8) -/

/-- C7.  The outlier detector is monotone in its configuration: raising the z
threshold never enlarges the flagged record set, and raising the minimum
partition size never enlarges the set of partitions whose statistics are
evaluated. -/
theorem outlier_monotone (df : List (String × Option ℚ)) (t₁ t₂ : ℚ)
    (m m₁ m₂ : ℕ) (ht : t₁ ≤ t₂) (hm : m₁ ≤ m₂) :
    (∀ x ∈ flaggedRecords m t₂ df, x ∈ flaggedRecords m t₁ df) ∧
    (∀ s ∈ evaluatedStates m₂ df, s ∈ evaluatedStates m₁ df) := by
  constructor
  · intro x hx
    rw [flaggedRecords, List.mem_flatMap] at hx ⊢
    rcases hx with ⟨s, hs, hbody⟩
    refine ⟨s, hs, ?_⟩
    by_cases h1 : (groupVotes df s).length < m
    · rw [if_pos h1] at hbody
      simp at hbody
    · rw [if_neg h1] at hbody ⊢
      by_cases h2 : madQ (groupVotes df s) == 0
      · rw [if_pos h2] at hbody
        simp at hbody
      · rw [if_neg h2] at hbody ⊢
        rcases List.mem_map.mp hbody with ⟨i, hi, rfl⟩
        refine List.mem_map.mpr ⟨i, ?_, rfl⟩
        rw [flaggedIn, List.mem_map] at hi ⊢
        rcases hi with ⟨p, hp, rfl⟩
        rcases List.mem_filter.mp hp with ⟨hpm, hpz⟩
        refine ⟨p, List.mem_filter.mpr ⟨hpm, ?_⟩, rfl⟩
        rw [decide_eq_true_eq] at hpz ⊢
        exact lt_of_le_of_lt ht hpz
  · intro s hs
    rcases List.mem_filter.mp hs with ⟨hmem, hlen⟩
    rw [decide_eq_true_eq] at hlen
    exact List.mem_filter.mpr ⟨hmem, by rw [decide_eq_true_eq]; exact le_trans hm hlen⟩

/-- Witness for C7: with thresholds `1 ≤ 2` and sizes `5 ≤ 10`, the ten-vote
partition evaluated at minimum size 10 is still evaluated at minimum size 5. -/
theorem outlier_monotone_witness :
    ((1 : ℚ) ≤ 2 ∧ (5 : ℕ) ≤ 10) ∧ "S" ∈ evaluatedStates 5 dfOutlier :=
  ⟨⟨one_le_two, by decide⟩,
    (outlier_monotone dfOutlier 1 2 3 5 10 one_le_two (by decide)).2 "S" (by decide)⟩

/-- C8.  A partition contributes to the outlier report only if it has at least
the minimum number of parseable votes and nonzero MAD (so the z-score division
never divides by zero); partitions failing either guard are silently absent
from the result, and the config defaults are 10 and 3.5. -/
theorem outlier_partition_guards (m : ℕ) (t : ℚ) (df : List (String × Option ℚ)) :
    (∀ s n, (s, n) ∈ voteDistributionCheck m t df →
      m ≤ (groupVotes df s).length ∧ madQ (groupVotes df s) ≠ 0 ∧ 0 < n) ∧
    (∀ s, ((groupVotes df s).length < m ∨ madQ (groupVotes df s) = 0) →
      ∀ n, (s, n) ∉ voteDistributionCheck m t df) ∧
    MIN_EXPECTED_ROWS = 10 ∧ OUTLIER_THRESHOLD = 7/2 := by
  have key : ∀ s n, (s, n) ∈ voteDistributionCheck m t df →
      m ≤ (groupVotes df s).length ∧ madQ (groupVotes df s) ≠ 0 ∧ 0 < n := by
    intro s n hmem
    rw [voteDistributionCheck, List.mem_filterMap] at hmem
    rcases hmem with ⟨s', _, hsome⟩
    by_cases h1 : (groupVotes df s').length < m
    · rw [if_pos h1] at hsome
      exact absurd hsome (by simp)
    · rw [if_neg h1] at hsome
      by_cases h2 : madQ (groupVotes df s') == 0
      · rw [if_pos h2] at hsome
        exact absurd hsome (by simp)
      · rw [if_neg h2] at hsome
        by_cases h3 : ((groupVotes df s').filter (fun v =>
            decide (t < |(v - medianQ (groupVotes df s')) / madQ (groupVotes df s')|))).length == 0
        · rw [if_pos h3] at hsome
          exact absurd hsome (by simp)
        · rw [if_neg h3] at hsome
          obtain ⟨hs, hn⟩ := Prod.mk.injEq .. ▸ (Option.some.injEq .. ▸ hsome)
          subst hs
          refine ⟨Nat.le_of_not_lt h1, by simpa using h2, ?_⟩
          rw [← hn]
          exact Nat.pos_of_ne_zero (by simpa using h3)
  refine ⟨key, ?_, rfl, rfl⟩
  intro s hbad n hmem
  rcases key s n hmem with ⟨h1, h2, _⟩
  rcases hbad with hb | hb
  · exact absurd h1 (Nat.not_le_of_lt hb)
  · exact h2 hb

/-- Witness for C8: a one-vote partition is below the minimum size and absent
from the report. -/
theorem outlier_partition_guards_witness :
    ((groupVotes dfSmall "S").length < 10 ∨ madQ (groupVotes dfSmall "S") = 0) ∧
      ("S", 1) ∉ voteDistributionCheck 10 (7/2) dfSmall :=
  ⟨Or.inl (by decide),
    (outlier_partition_guards 10 (7/2) dfSmall).2.1 "S" (Or.inl (by decide)) 1⟩

/-! ### The matcher's dict and loop structure (C1, C4, C10) -/

theorem dictLookup_dictInsert (d : AllMatches) (k k' : String) (v : MatchList) :
    dictLookup (dictInsert d k v) k' = if k' = k then some v else dictLookup d k' := by
  induction d with
  | nil =>
      by_cases h : k' = k
      · subst h
        simp [dictInsert, dictLookup]
      · rw [dictInsert, dictLookup, if_neg h, dictLookup,
          if_neg (fun he : k = k' => h he.symm)]
        rfl
  | cons p rest ih =>
      obtain ⟨a, b⟩ := p
      by_cases hak : a = k
      · subst hak
        rw [dictInsert, if_pos rfl, dictLookup, dictLookup]
        by_cases h : a = k'
        · rw [if_pos h, if_pos h.symm]
        · rw [if_neg h, if_neg h, if_neg (fun he : k' = a => h he.symm)]
      · rw [dictInsert, if_neg hak, dictLookup, dictLookup]
        by_cases h : a = k'
        · rw [if_pos h, if_pos h, if_neg (fun he : k' = k => hak (h.trans he))]
        · rw [if_neg h, if_neg h, ih]

theorem dictLookup_entryStep_self (aE : Bool) (s : ℕ) (sc : String → String → ℕ)
    (v cond e : String) (acc : AllMatches) :
    dictLookup (entryStep aE s sc v cond e acc) v =
      match qualRecord aE s sc cond e with
      | some r => some r
      | none => dictLookup acc v := by
  rw [entryStep]
  cases qualRecord aE s sc cond e with
  | none => rfl
  | some r => rw [dictLookup_dictInsert, if_pos rfl]

theorem dictLookup_entryStep_ne (aE : Bool) (s : ℕ) (sc : String → String → ℕ)
    (v cond e : String) (acc : AllMatches) (k : String) (h : k ≠ v) :
    dictLookup (entryStep aE s sc v cond e acc) k = dictLookup acc k := by
  rw [entryStep]
  cases qualRecord aE s sc cond e with
  | none => rfl
  | some r => rw [dictLookup_dictInsert, if_neg h]

theorem dictLookup_valueStep_self (aE : Bool) (s : ℕ) (sc : String → String → ℕ)
    (v : String) (entries : List String) (acc : AllMatches) :
    dictLookup (valueStep aE s sc v entries acc) v =
      match lastQual aE s sc (condense v) entries with
      | some r => some r
      | none => dictLookup acc v := by
  induction entries generalizing acc with
  | nil => rfl
  | cons e es ih =>
      rw [valueStep, List.foldl_cons]
      have step : dictLookup (valueStep aE s sc v es
          (entryStep aE s sc v (condense v) e acc)) v =
          match lastQual aE s sc (condense v) es with
          | some r => some r
          | none => dictLookup (entryStep aE s sc v (condense v) e acc) v := ih _
      rw [valueStep] at step
      rw [step, lastQual]
      cases lastQual aE s sc (condense v) es with
      | some r => rfl
      | none => rw [dictLookup_entryStep_self]

theorem dictLookup_valueStep_ne (aE : Bool) (s : ℕ) (sc : String → String → ℕ)
    (v : String) (entries : List String) (acc : AllMatches) (k : String)
    (h : k ≠ v) :
    dictLookup (valueStep aE s sc v entries acc) k = dictLookup acc k := by
  induction entries generalizing acc with
  | nil => rfl
  | cons e es ih =>
      rw [valueStep, List.foldl_cons]
      have step := ih (entryStep aE s sc v (condense v) e acc)
      rw [valueStep] at step
      rw [step, dictLookup_entryStep_ne _ _ _ _ _ _ _ _ h]

theorem exploreLoop_cons_some (aE : Bool) (s : ℕ) (sc : String → String → ℕ)
    (aliases : List String) (u : String) (rest : List String) (acc : AllMatches) :
    exploreLoop aE s sc (some aliases) (u :: rest) acc =
      exploreLoop aE s sc (some aliases) rest (valueStep aE s sc u aliases acc) :=
  rfl

theorem exploreLoop_cons_none (aE : Bool) (s : ℕ) (sc : String → String → ℕ)
    (u : String) (rest : List String) (acc : AllMatches) :
    exploreLoop aE s sc none (u :: rest) acc =
      exploreLoop aE s sc none rest (valueStep aE s sc u rest acc) :=
  rfl

theorem dictLookup_exploreLoop_notMem (aE : Bool) (s : ℕ)
    (sc : String → String → ℕ) (sl : Option (List String)) (L : List String)
    (v : String) :
    ∀ acc : AllMatches, v ∉ L →
      dictLookup (exploreLoop aE s sc sl L acc) v = dictLookup acc v := by
  induction L with
  | nil => intro acc _; rfl
  | cons u rest ih =>
      intro acc h
      have hvu : v ≠ u := fun he => h (he ▸ List.mem_cons_self u rest)
      have hvr : v ∉ rest := fun he => h (List.mem_cons_of_mem u he)
      cases sl with
      | some aliases =>
          rw [exploreLoop_cons_some, ih _ hvr,
            dictLookup_valueStep_ne _ _ _ _ _ _ _ hvu]
      | none =>
          rw [exploreLoop_cons_none, ih _ hvr,
            dictLookup_valueStep_ne _ _ _ _ _ _ _ hvu]

/-- In taxonomy mode, for distinct values, the dict entry of each value is
exactly the record of the last qualifying alias. -/
theorem dictLookup_exploreLoop_mem (aE : Bool) (s : ℕ)
    (sc : String → String → ℕ) (aliases : List String) (L : List String)
    (v : String) :
    ∀ acc : AllMatches, v ∈ L → L.Nodup →
      dictLookup (exploreLoop aE s sc (some aliases) L acc) v =
        match lastQual aE s sc (condense v) aliases with
        | some r => some r
        | none => dictLookup acc v := by
  induction L with
  | nil => intro acc hv _; exact absurd hv (List.not_mem_nil v)
  | cons u rest ih =>
      intro acc hv hnd
      rw [exploreLoop_cons_some]
      by_cases hvu : v = u
      · subst hvu
        have hnr : v ∉ rest := (List.nodup_cons.mp hnd).1
        rw [dictLookup_exploreLoop_notMem _ _ _ _ _ _ _ hnr,
          dictLookup_valueStep_self]
      · have hvr : v ∈ rest := by
          rcases List.mem_cons.mp hv with h | h
          · exact absurd h hvu
          · exact h
        rw [ih _ hvr (List.nodup_cons.mp hnd).2]
        cases lastQual aE s sc (condense v) aliases with
        | some r => rfl
        | none => rw [dictLookup_valueStep_ne _ _ _ _ _ _ _ hvu]

theorem insertByLen_perm (x : String) (l : List String) :
    (insertByLen x l).Perm (x :: l) := by
  induction l with
  | nil => exact List.Perm.refl _
  | cons y ys ih =>
      rw [insertByLen]
      by_cases h : y.length < x.length
      · rw [if_pos h]
        exact (ih.cons y).trans (List.Perm.swap x y ys)
      · rw [if_neg h]

theorem sortByLen_perm (l : List String) : (sortByLen l).Perm l := by
  induction l with
  | nil => exact List.Perm.refl _
  | cons x xs ih => exact (insertByLen_perm x (sortByLen xs)).trans (ih.cons x)

/-- C1 (amended).  In taxonomy mode, the match recorded for a value is the one
produced by the *last* alias in iteration order that qualifies (fuzzy score at
or above the sensitivity, or containment): each later qualifying alias
overwrites the previously recorded match, whatever the scores. -/
theorem taxonomy_match_last_qualifying_wins (score : String → String → ℕ)
    (sens : ℕ) (aliases values : List String) (hnd : values.Nodup)
    (v : String) (hv : v ∈ values) :
    dictLookup (explore score sens false (some aliases) values) v =
      lastQual false sens score (condense v) aliases := by
  rw [explore, dictLookup_exploreLoop_mem _ _ _ _ _ _ _
    ((sortByLen_perm values).mem_iff.mpr hv)
    ((sortByLen_perm values).nodup_iff.mpr hnd)]
  cases lastQual false sens score (condense v) aliases with
  | some r => rfl
  | none => rfl

/-- Counterexample for C1.  With aliases iterated as
`["HELLO WORLD", "HELLO WORLDS"]` and value `"HELLO WORLD"` at sensitivity 90,
the alias `"HELLO WORLD"` qualifies with the maximal score 100, yet the
recorded match is the later, lower-scoring alias `"HELLO WORLDS"` (score 96):
the highest-scoring qualifying alias is *not* what is recorded.  `scoreC1`
agrees with fuzzywuzzy's `WRatio` on both compared pairs. -/
theorem taxonomy_match_highest_counterexample :
    dictLookup (explore scoreC1 90 false
        (some ["HELLO WORLD", "HELLO WORLDS"]) ["HELLO WORLD"]) "HELLO WORLD" =
      some [("HELLO WORLDS", some 96)] ∧
    scoreC1 (condense "HELLO WORLD") "HELLO WORLD" = 100 ∧
    90 ≤ scoreC1 (condense "HELLO WORLD") "HELLO WORLD" ∧
    scoreC1 (condense "HELLO WORLD") "HELLO WORLDS" = 96 ∧ 96 < 100 := by
  refine ⟨by decide, by decide, by decide, by decide, by decide⟩

/-- Witness for C1 at the counterexample's input. -/
theorem taxonomy_match_last_qualifying_wins_witness :
    (["HELLO WORLD"] : List String).Nodup ∧
    "HELLO WORLD" ∈ (["HELLO WORLD"] : List String) ∧
    dictLookup (explore scoreC1 90 false
        (some ["HELLO WORLD", "HELLO WORLDS"]) ["HELLO WORLD"]) "HELLO WORLD" =
      lastQual false 90 scoreC1 (condense "HELLO WORLD")
        ["HELLO WORLD", "HELLO WORLDS"] :=
  ⟨by decide, by decide,
    taxonomy_match_last_qualifying_wins scoreC1 90
      ["HELLO WORLD", "HELLO WORLDS"] ["HELLO WORLD"] (by decide)
      "HELLO WORLD" (by decide)⟩

/-! ### Within-column mode (C4) -/

theorem fuzzyPairsLoop_cons_some (sl : List String) (v : String)
    (rest : List String) :
    fuzzyPairsLoop (some sl) (v :: rest) =
      (sl.filterMap (fun e =>
        if condense v == QUOTED_EMPTY || e == QUOTED_EMPTY then none
        else some (condense v, e))) ++ fuzzyPairsLoop (some sl) rest :=
  rfl

theorem fuzzyPairsLoop_cons_none (v : String) (rest : List String) :
    fuzzyPairsLoop none (v :: rest) =
      (rest.filterMap (fun e =>
        if condense v == QUOTED_EMPTY || e == QUOTED_EMPTY then none
        else some (condense v, e))) ++ fuzzyPairsLoop none rest :=
  rfl

theorem comparedPairsLoop_cons_none (v : String) (rest : List String) :
    comparedPairsLoop none (v :: rest) =
      rest.map (fun e => (v, e)) ++ comparedPairsLoop none rest :=
  rfl

theorem comparedPairsLoop_sublist :
    ∀ (l : List String) (a b : String),
      (a, b) ∈ comparedPairsLoop none l → [a, b].Sublist l := by
  intro l
  induction l with
  | nil =>
      intro a b h
      simp [comparedPairsLoop] at h
  | cons v rest ih =>
      intro a b h
      rw [comparedPairsLoop_cons_none] at h
      rcases List.mem_append.mp h with h1 | h1
      · rcases List.mem_map.mp h1 with ⟨e, he, heq⟩
        obtain ⟨h2, h3⟩ := Prod.mk.injEq .. ▸ heq
        subst h2
        subst h3
        exact List.Sublist.cons₂ _ (List.singleton_sublist.mpr he)
      · exact List.Sublist.cons _ (ih a b h1)

/-- C4 (amended).  In within-column mode each value is compared only against
the values strictly after it in the stable shortest-first ordering — every
iterated `(value, entry)` pair is an ordered sublist of the sorted value list —
so a near-duplicate pair is examined once, under the earlier value only, and the
later value of a two-value column never records any match, whatever the
scorer. -/
theorem within_column_forward_only :
    (∀ (values : List String) (a b : String),
      (a, b) ∈ comparedPairs none values → [a, b].Sublist (sortByLen values)) ∧
    (∀ (score : String → String → ℕ) (sens : ℕ) (a b : String),
      a.length ≤ b.length → a ≠ b →
      dictLookup (explore score sens false none [a, b]) b = none) := by
  constructor
  · intro values a b h
    exact comparedPairsLoop_sublist _ a b h
  · intro score sens a b hlen hne
    have hsort : sortByLen [a, b] = [a, b] := by
      show insertByLen a (insertByLen b (sortByLen [])) = [a, b]
      show insertByLen a [b] = [a, b]
      rw [insertByLen, if_neg (Nat.not_lt.mpr hlen)]
    rw [explore, hsort, exploreLoop_cons_none, exploreLoop_cons_none]
    show dictLookup (valueStep false sens score a [b] []) b = none
    rw [dictLookup_valueStep_ne _ _ _ _ _ _ _ (Ne.symm hne)]
    rfl

/-- Counterexample for C4.  On within-column values `["SMITH", "SM1TH"]` at
sensitivity 90, neither value appears in the other's match list: the later
value `"SM1TH"` is compared against nothing (so it can record no match), and
`"SMITH"` scores only 80 against `"SM1TH"` under `WRatio` (`scoreC4`), below
the threshold.  The claimed mutual near-duplicate flag does not occur. -/
theorem within_column_mutual_counterexample :
    dictLookup (explore scoreC4 90 false none ["SMITH", "SM1TH"]) "SM1TH" = none ∧
    dictLookup (explore scoreC4 90 false none ["SMITH", "SM1TH"]) "SMITH" = none := by
  refine ⟨by decide, by decide⟩

/-- Witness for C4 at the example's input. -/
theorem within_column_forward_only_witness :
    (("SMITH", "SM1TH") ∈ comparedPairs none ["SMITH", "SM1TH"]) ∧
    ([("SMITH" : String), "SM1TH"].Sublist (sortByLen ["SMITH", "SM1TH"])) ∧
    ("SMITH".length ≤ "SM1TH".length ∧ ("SMITH" : String) ≠ "SM1TH") ∧
    dictLookup (explore scoreC4 90 false none ["SMITH", "SM1TH"]) "SM1TH" = none :=
  ⟨by decide, within_column_forward_only.1 ["SMITH", "SM1TH"] _ _ (by decide),
    ⟨by decide, by decide⟩,
    within_column_forward_only.2 scoreC4 90 _ _ (by decide) (by decide)⟩

/-! ### The fuzzy-comparison exemption (C10) -/

theorem qualRecord_congr (aE : Bool) (s : ℕ) (sc sc' : String → String → ℕ)
    (cond e : String)
    (h : (cond == QUOTED_EMPTY || e == QUOTED_EMPTY) = true ∨
      sc cond e = sc' cond e) :
    qualRecord aE s sc cond e = qualRecord aE s sc' cond e := by
  by_cases hg : (cond == QUOTED_EMPTY || e == QUOTED_EMPTY) = true
  · rw [qualRecord, qualRecord, if_pos hg, if_pos hg]
  · have hsc : sc cond e = sc' cond e := by
      rcases h with h | h
      · exact absurd h hg
      · exact h
    rw [qualRecord, qualRecord, if_neg hg, if_neg hg, hsc]

theorem valueStep_congr (aE : Bool) (s : ℕ) (sc sc' : String → String → ℕ)
    (v : String) :
    ∀ (entries : List String) (acc : AllMatches),
      (∀ e ∈ entries, (condense v == QUOTED_EMPTY || e == QUOTED_EMPTY) = true ∨
        sc (condense v) e = sc' (condense v) e) →
      valueStep aE s sc v entries acc = valueStep aE s sc' v entries acc := by
  intro entries
  induction entries with
  | nil => intro acc _; rfl
  | cons e es ih =>
      intro acc h
      rw [valueStep, List.foldl_cons, valueStep] at *
      rw [show entryStep aE s sc v (condense v) e acc =
          entryStep aE s sc' v (condense v) e acc by
        rw [entryStep, entryStep, qualRecord_congr aE s sc sc' _ _
          (h e (List.mem_cons_self e es))]]
      exact ih _ (fun e' he' => h e' (List.mem_cons_of_mem e he'))

theorem exploreLoop_congr (aE : Bool) (s : ℕ) (sc sc' : String → String → ℕ)
    (sl : Option (List String)) :
    ∀ (L : List String) (acc : AllMatches),
      (∀ p ∈ fuzzyPairsLoop sl L, sc p.1 p.2 = sc' p.1 p.2) →
      exploreLoop aE s sc sl L acc = exploreLoop aE s sc' sl L acc := by
  intro L
  induction L with
  | nil => intro acc _; rfl
  | cons v rest ih =>
      intro acc h
      have hentries : ∀ (entries : List String),
          (∀ e ∈ entries, ((if condense v == QUOTED_EMPTY || e == QUOTED_EMPTY
              then none else some (condense v, e)) = some (condense v, e) →
            (condense v, e) ∈ fuzzyPairsLoop sl (v :: rest))) →
          ∀ e ∈ entries,
            (condense v == QUOTED_EMPTY || e == QUOTED_EMPTY) = true ∨
              sc (condense v) e = sc' (condense v) e := by
        intro entries hmem e he
        by_cases hg : (condense v == QUOTED_EMPTY || e == QUOTED_EMPTY) = true
        · exact Or.inl hg
        · refine Or.inr ?_
          have : (condense v, e) ∈ fuzzyPairsLoop sl (v :: rest) :=
            hmem e he (by rw [if_neg hg])
          exact h _ this
      cases sl with
      | some aliases =>
          rw [exploreLoop_cons_some, exploreLoop_cons_some,
            valueStep_congr aE s sc sc' v aliases acc
              (hentries aliases (fun e he hsome => by
                rw [fuzzyPairsLoop_cons_some]
                exact List.mem_append_left _ (List.mem_filterMap.mpr ⟨e, he, hsome⟩)))]
          refine ih _ (fun p hp => h p ?_)
          rw [fuzzyPairsLoop_cons_some]
          exact List.mem_append_right _ hp
      | none =>
          rw [exploreLoop_cons_none, exploreLoop_cons_none,
            valueStep_congr aE s sc sc' v rest acc
              (hentries rest (fun e he hsome => by
                rw [fuzzyPairsLoop_cons_none]
                exact List.mem_append_left _ (List.mem_filterMap.mpr ⟨e, he, hsome⟩)))]
          refine ih _ (fun p hp => h p ?_)
          rw [fuzzyPairsLoop_cons_none]
          exact List.mem_append_right _ hp

theorem fuzzyPairsLoop_no_quoted (sl : Option (List String)) :
    ∀ (L : List String) (p : String × String), p ∈ fuzzyPairsLoop sl L →
      p.1 ≠ QUOTED_EMPTY ∧ p.2 ≠ QUOTED_EMPTY := by
  intro L
  induction L with
  | nil =>
      intro p hp
      simp [fuzzyPairsLoop] at hp
  | cons v rest ih =>
      intro p hp
      have key : ∀ (entries : List String),
          p ∈ entries.filterMap (fun e =>
            if condense v == QUOTED_EMPTY || e == QUOTED_EMPTY then none
            else some (condense v, e)) →
          p.1 ≠ QUOTED_EMPTY ∧ p.2 ≠ QUOTED_EMPTY := by
        intro entries hmem
        rcases List.mem_filterMap.mp hmem with ⟨e, _, hsome⟩
        by_cases hg : (condense v == QUOTED_EMPTY || e == QUOTED_EMPTY) = true
        · rw [if_pos hg] at hsome
          exact absurd hsome (by simp)
        · rw [if_neg hg] at hsome
          have hp1 : condense v ≠ QUOTED_EMPTY ∧ e ≠ QUOTED_EMPTY := by
            rcases Bool.or_eq_false_iff.mp (Bool.eq_false_iff.mpr hg) with ⟨h1, h2⟩
            exact ⟨by simpa using h1, by simpa using h2⟩
          have heq : (condense v, e) = p := Option.some_injective _ hsome
          rw [← heq]
          exact hp1
      cases sl with
      | some aliases =>
          rw [fuzzyPairsLoop_cons_some] at hp
          rcases List.mem_append.mp hp with h1 | h1
          · exact key aliases h1
          · exact ih p h1
      | none =>
          rw [fuzzyPairsLoop_cons_none] at hp
          rcases List.mem_append.mp hp with h1 | h1
          · exact key rest h1
          · exact ih p h1

/-- C10 (amended).  The value exempt from fuzzy comparison is the literal
quoted-empty string `'""'`, not the `EMPTY_RECORD` sentinel: no fuzzy
comparison has `'""'` as (condensed) value under test or as comparison entry,
and the matcher's output depends on the scorer only through the pairs actually
fuzzily compared. -/
theorem quoted_empty_fuzzy_exempt :
    (∀ (sl : Option (List String)) (values : List String) (p : String × String),
      p ∈ fuzzyPairs sl values → p.1 ≠ QUOTED_EMPTY ∧ p.2 ≠ QUOTED_EMPTY) ∧
    (∀ (score score' : String → String → ℕ) (sens : ℕ) (aE : Bool)
      (sl : Option (List String)) (values : List String),
      (∀ p ∈ fuzzyPairs sl values, score p.1 p.2 = score' p.1 p.2) →
      explore score sens aE sl values = explore score' sens aE sl values) := by
  constructor
  · intro sl values p hp
    exact fuzzyPairsLoop_no_quoted sl _ p hp
  · intro score score' sens aE sl values h
    exact exploreLoop_congr aE sens score score' sl _ _ h

/-- Counterexample for C10.  The reserved `EMPTY_RECORD` sentinel *does*
participate in fuzzy comparison: with value set and alias set both
`[EMPTY_RECORD]`, the pair is fuzzily compared (only the literal `'""'` is
exempt), and the matcher's output genuinely depends on the score given to the
sentinel pair. -/
theorem sentinel_fuzzy_counterexample :
    (condense EMPTY_RECORD, EMPTY_RECORD) ∈
      fuzzyPairs (some [EMPTY_RECORD]) [EMPTY_RECORD] ∧
    condense EMPTY_RECORD = EMPTY_RECORD ∧
    EMPTY_RECORD ≠ QUOTED_EMPTY ∧
    explore (fun _ _ => 100) 90 false (some [EMPTY_RECORD]) [EMPTY_RECORD] ≠
      explore (fun _ _ => 0) 90 false (some [EMPTY_RECORD]) [EMPTY_RECORD] := by
  refine ⟨by decide, by decide, by decide, by decide⟩

/-- Witness for C10 on a concrete fuzzily-compared pair and a concrete pair of
scorers agreeing on all compared pairs. -/
theorem quoted_empty_fuzzy_exempt_witness :
    (("A", "B") ∈ fuzzyPairs (some ["B"]) ["A"]) ∧
    (("A" : String) ≠ QUOTED_EMPTY ∧ ("B" : String) ≠ QUOTED_EMPTY) ∧
    explore (fun _ _ => 50) 90 false (some ["B"]) ["A"] =
      explore (fun p _ => if p = "A" then 50 else 99) 90 false (some ["B"]) ["A"] :=
  ⟨by decide, quoted_empty_fuzzy_exempt.1 (some ["B"]) ["A"] ("A", "B") (by decide),
    quoted_empty_fuzzy_exempt.2 _ _ 90 false (some ["B"]) ["A"] (by decide)⟩

/-! ### The token-overlap suggestion heuristic (C9) -/

theorem overlapScore_empty {o c : String}
    (h : (uniqFirst (toksOf c)).isEmpty = true) : overlapScore o c = 0 := by
  rw [overlapScore, if_pos h]

/-- The running best of the token scan never decreases, stays nonnegative, and
ends at least as large as every scanned overlap. -/
theorem tokenScan_bounds (o : String) :
    ∀ (cs : List String) (bt : Option String) (bo : ℚ), 0 ≤ bo →
      0 ≤ (tokenScan o cs (bt, bo)).2 ∧ bo ≤ (tokenScan o cs (bt, bo)).2 ∧
      ∀ c ∈ cs, overlapScore o c ≤ (tokenScan o cs (bt, bo)).2 := by
  intro cs
  induction cs with
  | nil =>
      intro bt bo h0
      exact ⟨h0, le_refl _, by simp⟩
  | cons c cs ih =>
      intro bt bo h0
      rw [tokenScan]
      by_cases hemp : (uniqFirst (toksOf c)).isEmpty = true
      · rw [if_pos hemp]
        rcases ih bt bo h0 with ⟨h1, h2, h3⟩
        refine ⟨h1, h2, ?_⟩
        intro c' hc'
        rcases List.mem_cons.mp hc' with rfl | hc'
        · rw [overlapScore_empty hemp]
          exact h1
        · exact h3 c' hc'
      · rw [if_neg hemp]
        by_cases hlt : bo < overlapScore o c
        · rw [if_pos hlt]
          rcases ih (some c) (overlapScore o c) (le_of_lt (lt_of_le_of_lt h0 hlt)) with
            ⟨h1, h2, h3⟩
          refine ⟨h1, le_trans (le_of_lt hlt) h2, ?_⟩
          intro c' hc'
          rcases List.mem_cons.mp hc' with rfl | hc'
          · exact h2
          · exact h3 c' hc'
        · rw [if_neg hlt]
          rcases ih bt bo h0 with ⟨h1, h2, h3⟩
          refine ⟨h1, h2, ?_⟩
          intro c' hc'
          rcases List.mem_cons.mp hc' with rfl | hc'
          · exact le_trans (le_of_not_lt hlt) h2
          · exact h3 c' hc'

/-- The token scan either leaves its accumulator untouched or ends at some
scanned canonical together with that canonical's own overlap. -/
theorem tokenScan_result (o : String) :
    ∀ (cs : List String) (bt : Option String) (bo : ℚ),
      tokenScan o cs (bt, bo) = (bt, bo) ∨
      ∃ c ∈ cs, tokenScan o cs (bt, bo) = (some c, overlapScore o c) := by
  intro cs
  induction cs with
  | nil =>
      intro bt bo
      exact Or.inl rfl
  | cons c cs ih =>
      intro bt bo
      rw [tokenScan]
      by_cases hemp : (uniqFirst (toksOf c)).isEmpty = true
      · rw [if_pos hemp]
        rcases ih bt bo with h | ⟨c', hc', h⟩
        · exact Or.inl h
        · exact Or.inr ⟨c', List.mem_cons_of_mem _ hc', h⟩
      · rw [if_neg hemp]
        by_cases hlt : bo < overlapScore o c
        · rw [if_pos hlt]
          rcases ih (some c) (overlapScore o c) with h | ⟨c', hc', h⟩
          · exact Or.inr ⟨c, List.mem_cons_self c cs, h⟩
          · exact Or.inr ⟨c', List.mem_cons_of_mem _ hc', h⟩
        · rw [if_neg hlt]
          rcases ih bt bo with h | ⟨c', hc', h⟩
          · exact Or.inl h
          · exact Or.inr ⟨c', List.mem_cons_of_mem _ hc', h⟩

/-- A canonical reaching the acceptance threshold forces the observed value to
have tokens. -/
theorem overlapScore_oT_nonempty {o c' : String}
    (h : 2/5 ≤ overlapScore o c') : (uniqFirst (toksOf o)).isEmpty = false := by
  by_cases hE : (uniqFirst (toksOf o)).isEmpty = true
  · exfalso
    have hnil : uniqFirst (toksOf o) = [] := by
      cases hu : uniqFirst (toksOf o) with
      | nil => rfl
      | cons x xs => rw [hu] at hE; simp [List.isEmpty] at hE
    rw [overlapScore] at h
    by_cases hc : (uniqFirst (toksOf c')).isEmpty = true
    · rw [if_pos hc] at h
      norm_num at h
    · rw [if_neg hc, hnil] at h
      simp only [List.filter_nil, List.length_nil, Nat.cast_zero, mul_zero,
        zero_div] at h
      norm_num at h
  · exact Bool.eq_false_iff.mpr hE

/-- C9 (amended).  When the quick exact/containment heuristics fail, the
token-overlap heuristic accepts the best-overlap canonical iff some canonical
reaches overlap `0.4`, and the suggestion it returns carries the maximal
overlap and confidence `round(0.8 + 0.2·overlap, 2)` — the confidence is
rounded to two decimal places, not the exact `0.8 + 0.2·overlap`. -/
theorem token_overlap_heuristic (o : String) (_h : quickBest o = none) :
    (∀ c conf, tokenBest o = some (c, conf) →
      c ∈ CANONICAL ∧ 2/5 ≤ overlapScore o c ∧
      (∀ c' ∈ CANONICAL, overlapScore o c' ≤ overlapScore o c) ∧
      conf = round2 (4/5 + overlapScore o c * (1/5))) ∧
    ((∃ c' ∈ CANONICAL, 2/5 ≤ overlapScore o c') → tokenBest o ≠ none) := by
  constructor
  · intro c conf hsome
    rw [tokenBest] at hsome
    by_cases hoT : (uniqFirst (toksOf o)).isEmpty = true
    · rw [if_pos hoT] at hsome
      exact absurd hsome (by simp)
    · rw [if_neg hoT] at hsome
      rcases hscan : tokenScan o CANONICAL (none, 0) with ⟨bt, bo⟩
      rw [hscan] at hsome
      cases bt with
      | none => simp at hsome
      | some c0 =>
          dsimp only at hsome
          by_cases hge : 2/5 ≤ bo
          · rw [if_pos hge] at hsome
            have heq := Option.some_injective _ hsome
            obtain ⟨hc0, hconf⟩ := Prod.mk.injEq .. ▸ heq
            rcases tokenScan_result o CANONICAL none 0 with hres | ⟨c'', hc'', hres⟩
            · rw [hscan] at hres
              obtain ⟨habs, _⟩ := Prod.mk.injEq .. ▸ hres
              exact absurd habs (by simp)
            · rw [hscan] at hres
              obtain ⟨hbt, hbo⟩ := Prod.mk.injEq .. ▸ hres
              have hc0c'' : c0 = c'' := Option.some_injective _ hbt
              subst hc0c''
              subst hc0
              have hmax := (tokenScan_bounds o CANONICAL none 0 (le_refl 0)).2.2
              refine ⟨hc'', hbo ▸ hge, ?_, ?_⟩
              · intro c' hc'
                have := hmax c' hc'
                rw [hscan] at this
                exact hbo ▸ this
              · rw [← hconf, hbo]
          · rw [if_neg hge] at hsome
            exact absurd hsome (by simp)
  · rintro ⟨c', hc', hov⟩
    rw [tokenBest, if_neg (by rw [overlapScore_oT_nonempty hov]; simp)]
    rcases hscan : tokenScan o CANONICAL (none, 0) with ⟨bt, bo⟩
    have hbo : 2/5 ≤ bo := by
      have hb := (tokenScan_bounds o CANONICAL none 0 (le_refl 0)).2.2 c' hc'
      rw [hscan] at hb
      exact le_trans hov hb
    cases bt with
    | none =>
        exfalso
        rcases tokenScan_result o CANONICAL none 0 with hres | ⟨c'', _, hres⟩
        · rw [hscan] at hres
          obtain ⟨_, hbo0⟩ := Prod.mk.injEq .. ▸ hres
          rw [hbo0] at hbo
          norm_num at hbo
        · rw [hscan] at hres
          obtain ⟨habs, _⟩ := Prod.mk.injEq .. ▸ hres
          exact absurd habs (by simp)
    | some c0 =>
        dsimp only
        rw [if_pos hbo]
        simp

theorem overlapScore_eval (o c : String) (i a b : ℕ)
    (hne : (uniqFirst (toksOf c)).isEmpty = false)
    (hi : ((uniqFirst (toksOf o)).filter
      (fun t => (uniqFirst (toksOf c)).contains t)).length = i)
    (ha : (uniqFirst (toksOf o)).length = a)
    (hb : (uniqFirst (toksOf c)).length = b) :
    overlapScore o c = (2 * (i : ℚ)) / ((a : ℚ) + (b : ℚ)) := by
  rw [overlapScore, if_neg (by rw [hne]; simp), hi, ha, hb]

/-- The token overlap of the counterexample value with `"US SENATE"`. -/
theorem overlap_senate_val :
    overlapScore "SENATE US SPECIAL RACE" "US SENATE" = 2/3 := by
  rw [overlapScore_eval _ _ 2 4 2 (by decide) (by decide) (by decide) (by decide)]
  norm_num

/-- Counterexample for C9.  On the observed value `"SENATE US SPECIAL RACE"`
(where the quick heuristics fail), the token heuristic accepts `"US SENATE"`
with overlap `2/3`, but the recorded confidence is `round(0.8 + 0.2·(2/3), 2)
= 0.93`, not the claimed exact `0.8 + 0.2·(2/3) = 14/15 = 0.9333…`. -/
theorem token_overlap_rounding_counterexample :
    quickBest "SENATE US SPECIAL RACE" = none ∧
    tokenBest "SENATE US SPECIAL RACE" = some ("US SENATE", 93/100) ∧
    overlapScore "SENATE US SPECIAL RACE" "US SENATE" = 2/3 ∧
    (93/100 : ℚ) ≠ 4/5 + 2/3 * (1/5) := by
  have e1 : overlapScore "SENATE US SPECIAL RACE" "US PRESIDENT" = 1/3 := by
    rw [overlapScore_eval _ _ 1 4 2 (by decide) (by decide) (by decide) (by decide)]
    norm_num
  have e2 : overlapScore "SENATE US SPECIAL RACE" "GOVERNOR" = 0 := by
    rw [overlapScore_eval _ _ 0 4 1 (by decide) (by decide) (by decide) (by decide)]
    norm_num
  have e3 := overlap_senate_val
  have e4 : overlapScore "SENATE US SPECIAL RACE" "US HOUSE" = 1/3 := by
    rw [overlapScore_eval _ _ 1 4 2 (by decide) (by decide) (by decide) (by decide)]
    norm_num
  have e5 : overlapScore "SENATE US SPECIAL RACE" "STATE SENATE" = 1/3 := by
    rw [overlapScore_eval _ _ 1 4 2 (by decide) (by decide) (by decide) (by decide)]
    norm_num
  have e6 : overlapScore "SENATE US SPECIAL RACE" "STATE HOUSE" = 0 := by
    rw [overlapScore_eval _ _ 0 4 2 (by decide) (by decide) (by decide) (by decide)]
    norm_num
  have e7 : overlapScore "SENATE US SPECIAL RACE" "ATTORNEY GENERAL" = 0 := by
    rw [overlapScore_eval _ _ 0 4 2 (by decide) (by decide) (by decide) (by decide)]
    norm_num
  have e8 : overlapScore "SENATE US SPECIAL RACE" "SECRETARY OF STATE" = 0 := by
    rw [overlapScore_eval _ _ 0 4 2 (by decide) (by decide) (by decide) (by decide)]
    norm_num
  have e9 : overlapScore "SENATE US SPECIAL RACE" "TREASURER" = 0 := by
    rw [overlapScore_eval _ _ 0 4 1 (by decide) (by decide) (by decide) (by decide)]
    norm_num
  have hE1 : (uniqFirst (toksOf "US PRESIDENT")).isEmpty = false := by decide
  have hE2 : (uniqFirst (toksOf "GOVERNOR")).isEmpty = false := by decide
  have hE3 : (uniqFirst (toksOf "US SENATE")).isEmpty = false := by decide
  have hE4 : (uniqFirst (toksOf "US HOUSE")).isEmpty = false := by decide
  have hE5 : (uniqFirst (toksOf "STATE SENATE")).isEmpty = false := by decide
  have hE6 : (uniqFirst (toksOf "STATE HOUSE")).isEmpty = false := by decide
  have hE7 : (uniqFirst (toksOf "ATTORNEY GENERAL")).isEmpty = false := by decide
  have hE8 : (uniqFirst (toksOf "SECRETARY OF STATE")).isEmpty = false := by decide
  have hE9 : (uniqFirst (toksOf "TREASURER")).isEmpty = false := by decide
  have hscan : tokenScan "SENATE US SPECIAL RACE" CANONICAL (none, 0) =
      (some "US SENATE", 2/3) := by
    simp only [CANONICAL, tokenScan, e1, e2, e3, e4, e5, e6, e7, e8, e9,
      hE1, hE2, hE3, hE4, hE5, hE6, hE7, hE8, hE9]
    norm_num
  have hr : round2 (4/5 + 2/3 * (1/5)) = 93/100 := by
    rw [round2, round_eq]
    norm_num
  refine ⟨by decide, ?_, e3, by norm_num⟩
  rw [tokenBest, if_neg (by decide), hscan]
  dsimp only
  rw [if_pos (by norm_num : (2 : ℚ)/5 ≤ 2/3), hr]

/-- Witness for C9 at the counterexample's input. -/
theorem token_overlap_heuristic_witness :
    quickBest "SENATE US SPECIAL RACE" = none ∧
    tokenBest "SENATE US SPECIAL RACE" ≠ none :=
  ⟨by decide,
    (token_overlap_heuristic "SENATE US SPECIAL RACE" (by decide)).2
      ⟨"US SENATE", by decide, by rw [overlap_senate_val]; norm_num⟩⟩

end QApp
